import Mathlib

set_option maxHeartbeats 1000000
set_option maxRecDepth 10000

/-!
Shallow embedding of the `security-auditor` repository (Python) and proofs
about it.  The detectors of this program are driven by Python `re` regular
expressions, so the development first embeds the fragment of Python regular
expressions the program uses: character classes, ordered alternation,
optional groups and greedy/lazy repetition of a character class (every
starred/plussed subpattern in the program is a single character class).
The matcher follows CPython's backtracking preference order: leftmost
start, left alternative first, greedy repetition longest-first, lazy
repetition shortest-first.  Strings are embedded as `List Char`.
-/

namespace SecAudit

/-- Character-class item of a Python regular expression: a literal
character, a character range, the whitespace class or the word class
(ASCII reading). -/
inductive CItem where
  | ch (c : Char)
  | rng (lo hi : Char)
  | wsp
  | wrd

/-- Test of a single class item against a character. -/
def CItem.test (c : Char) : CItem → Bool
  | .ch a => c = a
  | .rng lo hi => lo.toNat ≤ c.toNat && c.toNat ≤ hi.toNat
  | .wsp => c = ' ' || c = '\t' || c = '\n' || c = '\r' ||
      c = Char.ofNat 11 || c = Char.ofNat 12
  | .wrd => ('a'.toNat ≤ c.toNat && c.toNat ≤ 'z'.toNat) ||
      ('A'.toNat ≤ c.toNat && c.toNat ≤ 'Z'.toNat) ||
      ('0'.toNat ≤ c.toNat && c.toNat ≤ '9'.toNat) || c = '_'

/-- Character class: items, optional negation, optional case-insensitive
matching (Python `re.IGNORECASE`, which case-folds before negation). -/
structure CC where
  items : List CItem
  neg : Bool
  ci : Bool

/-- Test of a character class against a character. -/
def CC.test (cc : CC) (c : Char) : Bool :=
  let base : Char → Bool := fun x => cc.items.any (CItem.test x)
  let hit := if cc.ci then base c || base c.toLower || base c.toUpper else base c
  if cc.neg then !hit else hit

/-- Regular-expression abstract syntax for the fragment used by the
program.  Repetition (`star`) is restricted to a single character class,
which covers every pattern in the source. -/
inductive RE where
  | eps
  | cls (cc : CC)
  | seq (a b : RE)
  | alt (a b : RE)
  | opt (a : RE)
  | star (cc : CC) (lazy : Bool)

/-- Language of a regular expression (the set of exactly-matched words). -/
def Lang : RE → List Char → Prop
  | .eps, m => m = []
  | .cls cc, m => ∃ c, m = [c] ∧ cc.test c = true
  | .seq a b, m => ∃ u v, m = u ++ v ∧ Lang a u ∧ Lang b v
  | .alt a b, m => Lang a m ∨ Lang b m
  | .opt a, m => Lang a m ∨ m = []
  | .star cc _, m => ∀ c ∈ m, cc.test c = true

/-- Backtracking matcher in continuation-passing style.  `mtch re s k`
tries to match a prefix of `s` against `re` and calls `k` on the rest;
alternatives are tried in CPython preference order. -/
def mtch : RE → List Char → (List Char → Option (List Char)) → Option (List Char)
  | .eps, s, k => k s
  | .cls cc, s, k =>
    match s with
    | [] => none
    | c :: t => if cc.test c then k t else none
  | .seq a b, s, k => mtch a s fun t => mtch b t k
  | .alt a b, s, k => (mtch a s k).orElse fun _ => mtch b s k
  | .opt a, s, k => (mtch a s k).orElse fun _ => k s
  | .star cc lz, s, k =>
    let n := (s.takeWhile cc.test).length
    let order := if lz then List.range (n + 1) else (List.range (n + 1)).reverse
    order.findSome? fun j => k (s.drop j)

theorem findSome_mem {α β : Type} {f : α → Option β} :
    ∀ {l : List α} {b : β}, l.findSome? f = some b → ∃ a ∈ l, f a = some b := by
  intro l
  induction l with
  | nil => intro b h; simp [List.findSome?] at h
  | cons x xs ih =>
    intro b h
    rw [List.findSome?] at h
    cases hx : f x with
    | some v => rw [hx] at h; exact ⟨x, List.mem_cons_self x xs, hx.trans h⟩
    | none =>
      rw [hx] at h
      obtain ⟨a, ha, hfa⟩ := ih h
      exact ⟨a, List.mem_cons_of_mem x ha, hfa⟩

theorem take_le_takeWhile (p : Char → Bool) :
    ∀ (s : List Char) (j : Nat), j ≤ (s.takeWhile p).length →
      ∀ c ∈ s.take j, p c = true := by
  intro s
  induction s with
  | nil => intro j _ c hc; simp at hc
  | cons x t ih =>
    intro j hj c hc
    cases j with
    | zero => simp at hc
    | succ j' =>
      by_cases hx : p x
      · rw [List.takeWhile_cons, if_pos hx] at hj
        simp only [List.length_cons, Nat.succ_le_succ_iff] at hj
        simp only [List.take_succ_cons, List.mem_cons] at hc
        rcases hc with rfl | hc
        · exact hx
        · exact ih j' hj c hc
      · rw [List.takeWhile_cons, if_neg hx] at hj
        simp at hj

/-- Soundness of the matcher: a successful run splits the input into a
word of the language and a remainder accepted by the continuation. -/
theorem mtch_sound (re : RE) : ∀ (s : List Char) (k : List Char → Option (List Char))
    (r : List Char), mtch re s k = some r →
    ∃ u v, s = u ++ v ∧ Lang re u ∧ k v = some r := by
  induction re with
  | eps =>
    intro s k r h
    exact ⟨[], s, rfl, rfl, h⟩
  | cls cc =>
    intro s k r h
    match s with
    | [] => simp [mtch] at h
    | c :: t =>
      by_cases hc : cc.test c
      · rw [mtch, if_pos hc] at h
        exact ⟨[c], t, rfl, ⟨c, rfl, hc⟩, h⟩
      · rw [mtch, if_neg hc] at h
        exact absurd h (by simp)
  | seq a b iha ihb =>
    intro s k r h
    rw [mtch] at h
    obtain ⟨u, v, rfl, hu, hk⟩ := iha _ _ _ h
    obtain ⟨u2, v2, rfl, hu2, hk2⟩ := ihb _ _ _ hk
    exact ⟨u ++ u2, v2, by simp, ⟨u, u2, rfl, hu, hu2⟩, hk2⟩
  | alt a b iha ihb =>
    intro s k r h
    rw [mtch] at h
    cases ha : mtch a s k with
    | some v =>
      rw [ha] at h; simp only [Option.some_orElse'] at h
      obtain ⟨u, v2, hs, hu, hk⟩ := iha _ _ _ (ha.trans (by simpa using h))
      exact ⟨u, v2, hs, Or.inl hu, hk⟩
    | none =>
      rw [ha] at h; simp only [Option.none_orElse'] at h
      obtain ⟨u, v2, hs, hu, hk⟩ := ihb _ _ _ (by simpa using h)
      exact ⟨u, v2, hs, Or.inr hu, hk⟩
  | opt a iha =>
    intro s k r h
    rw [mtch] at h
    cases ha : mtch a s k with
    | some v =>
      rw [ha] at h; simp only [Option.some_orElse'] at h
      obtain ⟨u, v2, hs, hu, hk⟩ := iha _ _ _ (ha.trans (by simpa using h))
      exact ⟨u, v2, hs, Or.inl hu, hk⟩
    | none =>
      rw [ha] at h; simp only [Option.none_orElse'] at h
      exact ⟨[], s, rfl, Or.inr rfl, by simpa using h⟩
  | star cc lz =>
    intro s k r h
    rw [mtch] at h
    obtain ⟨j, hj, hk⟩ := findSome_mem h
    have hjle : j ≤ (s.takeWhile cc.test).length := by
      by_cases hlz : lz
      · simp [hlz, List.mem_range] at hj; omega
      · simp [hlz, List.mem_range] at hj; omega
    refine ⟨s.take j, s.drop j, (List.take_append_drop j s).symm, ?_, hk⟩
    exact take_le_takeWhile cc.test s j hjle

/-- Result of a successful match attempt started at the head of `s`:
the remaining suffix. -/
def firstMatchTail (re : RE) (s : List Char) : Option (List Char) :=
  mtch re s some

/-- Embedding of `re.search`: scan start positions left to right and
return `(offset, length)` of the first (leftmost, preference-first)
match. -/
def searchOff (re : RE) : List Char → Option (Nat × Nat)
  | [] => (firstMatchTail re []).map fun t => (0, 0 - t.length)
  | c :: ts =>
    match firstMatchTail re (c :: ts) with
    | some t => some (0, (c :: ts).length - t.length)
    | none => (searchOff re ts).map fun p => (p.1 + 1, p.2)

/-- Boolean `re.search` (used when the program only tests for a match). -/
def reTest (re : RE) (s : List Char) : Bool :=
  (searchOff re s).isSome

/-- Text of group 0 of `re.search` (`match.group(0)`). -/
def searchMatch (re : RE) (s : List Char) : Option (List Char) :=
  (searchOff re s).map fun p => (s.drop p.1).take p.2

/-- Embedding of `re.finditer`: the list of matched texts, scanning left
to right and resuming after each match (advancing one position after an
empty match, as CPython does). -/
def finditerAux (re : RE) : Nat → List Char → List (List Char)
  | 0, _ => []
  | fuel + 1, s =>
    match searchOff re s with
    | none => []
    | some (off, n) =>
      ((s.drop off).take n) :: finditerAux re fuel (s.drop (off + max n 1))

/-- List of all matches of `re` in `s` (Python `re.finditer`). -/
def finditer (re : RE) (s : List Char) : List (List Char) :=
  finditerAux re (s.length + 1) s

theorem firstMatchTail_sound {re : RE} {s t : List Char}
    (h : firstMatchTail re s = some t) :
    ∃ u, s = u ++ t ∧ Lang re u := by
  obtain ⟨u, v, rfl, hu, hk⟩ := mtch_sound re s some t h
  exact ⟨u, by simpa using Option.some_injective _ hk ▸ rfl, hu⟩

theorem searchOff_sound {re : RE} :
    ∀ {s : List Char} {off n : Nat}, searchOff re s = some (off, n) →
      Lang re ((s.drop off).take n) := by
  intro s
  induction s with
  | nil =>
    intro off n h
    rw [searchOff] at h
    cases hm : firstMatchTail re [] with
    | none => rw [hm] at h; simp at h
    | some t =>
      rw [hm] at h
      obtain ⟨u, hu, hl⟩ := firstMatchTail_sound hm
      have hu0 : u = [] := by
        cases u with
        | nil => rfl
        | cons a b => simp at hu
      simp only [Option.map_some'] at h
      obtain ⟨h1, h2⟩ := Prod.mk.injEq .. ▸ (Option.some_injective _ h)
      subst hu0
      have ht : t = [] := by simpa using hu.symm
      subst ht
      simp only [← h1, ← h2]
      simpa using hl
  | cons c ts ih =>
    intro off n h
    rw [searchOff] at h
    cases hm : firstMatchTail re (c :: ts) with
    | some t =>
      rw [hm] at h
      obtain ⟨u, hu, hl⟩ := firstMatchTail_sound hm
      obtain ⟨h1, h2⟩ := Prod.mk.injEq .. ▸ (Option.some_injective _ h)
      have hlen : (c :: ts).length = u.length + t.length := by
        rw [hu]; simp
      have hn : n = u.length := by omega
      subst h1 hn
      have : ((c :: ts).drop 0).take u.length = u := by
        rw [List.drop_zero, hu, List.take_left]
      rw [this]; exact hl
    | none =>
      rw [hm] at h
      cases hs : searchOff re ts with
      | none => rw [hs] at h; simp at h
      | some p =>
        rw [hs] at h
        simp only [Option.map_some'] at h
        obtain ⟨h1, h2⟩ := Prod.mk.injEq .. ▸ (Option.some_injective _ h)
        have := @ih p.1 p.2 (by rw [hs])
        rw [← h1, ← h2]
        simpa using this

theorem searchMatch_sound {re : RE} {s m : List Char}
    (h : searchMatch re s = some m) : Lang re m := by
  rw [searchMatch] at h
  cases hs : searchOff re s with
  | none => rw [hs] at h; simp at h
  | some p =>
    rw [hs] at h
    simp only [Option.map_some'] at h
    have := @searchOff_sound re s p.1 p.2 hs
    rwa [Option.some_injective _ h] at this

theorem finditerAux_sound {re : RE} :
    ∀ {fuel : Nat} {s m : List Char}, m ∈ finditerAux re fuel s → Lang re m := by
  intro fuel
  induction fuel with
  | zero => intro s m h; simp [finditerAux] at h
  | succ f ih =>
    intro s m h
    rw [finditerAux] at h
    cases hs : searchOff re s with
    | none => rw [hs] at h; simp at h
    | some p =>
      rw [hs] at h
      simp only [List.mem_cons] at h
      rcases h with rfl | h
      · exact @searchOff_sound re s p.1 p.2 (by rw [hs])
      · exact ih h

/-- Matches produced by `finditer` are words of the language. -/
theorem finditer_sound {re : RE} {s m : List Char}
    (h : m ∈ finditer re s) : Lang re m :=
  finditerAux_sound h

/-- Least possible length of a word of the language. -/
def minLen : RE → Nat
  | .eps => 0
  | .cls _ => 1
  | .seq a b => minLen a + minLen b
  | .alt a b => min (minLen a) (minLen b)
  | .opt _ => 0
  | .star _ _ => 0

theorem minLen_sound : ∀ (re : RE) (m : List Char), Lang re m → minLen re ≤ m.length := by
  intro re
  induction re with
  | eps => intro m h; rw [Lang] at h; simp [h, minLen]
  | cls cc => intro m h; obtain ⟨c, rfl, _⟩ := h; simp [minLen]
  | seq a b iha ihb =>
    intro m h
    obtain ⟨u, v, rfl, hu, hv⟩ := h
    have := iha u hu
    have := ihb v hv
    simp only [minLen, List.length_append]
    omega
  | alt a b iha ihb =>
    intro m h
    rcases h with h | h
    · have := iha m h; simp only [minLen]; omega
    · have := ihb m h; simp only [minLen]; omega
  | opt a iha => intro m h; simp [minLen]
  | star cc lz => intro m h; simp [minLen]

/-- Check that no character class of the expression accepts `c`;
a word of the language then never contains `c`. -/
def avoidChar (re : RE) (c : Char) : Bool :=
  match re with
  | .eps => true
  | .cls cc => !(cc.test c)
  | .seq a b => avoidChar a c && avoidChar b c
  | .alt a b => avoidChar a c && avoidChar b c
  | .opt a => avoidChar a c
  | .star cc _ => !(cc.test c)

theorem avoidChar_sound : ∀ (re : RE) (c : Char) (m : List Char),
    avoidChar re c = true → Lang re m → c ∉ m := by
  intro re
  induction re with
  | eps => intro c m _ h; rw [Lang] at h; simp [h]
  | cls cc =>
    intro c m ha h
    obtain ⟨x, rfl, hx⟩ := h
    rw [avoidChar, Bool.not_eq_true'] at ha
    simp only [List.mem_singleton]
    intro hc; subst hc; rw [hx] at ha; cases ha
  | seq a b iha ihb =>
    intro c m ha h
    obtain ⟨u, v, rfl, hu, hv⟩ := h
    rw [avoidChar, Bool.and_eq_true] at ha
    have h1 := iha c u ha.1 hu
    have h2 := ihb c v ha.2 hv
    simp only [List.mem_append]
    tauto
  | alt a b iha ihb =>
    intro c m ha h
    rw [avoidChar, Bool.and_eq_true] at ha
    rcases h with h | h
    · exact iha c m ha.1 h
    · exact ihb c m ha.2 h
  | opt a iha =>
    intro c m ha h
    rcases h with h | rfl
    · exact iha c m ha h
    · simp
  | star cc lz =>
    intro c m ha h
    rw [avoidChar, Bool.not_eq_true'] at ha
    intro hc
    have := h c hc
    rw [this] at ha; cases ha

/-- Words of `seq body (cls cc)` are nonempty and end in a character of
`cc`. -/
theorem lang_seq_cls_last {body : RE} {cc : CC} {m : List Char}
    (h : Lang (.seq body (.cls cc)) m) :
    ∃ c, m.getLast? = some c ∧ cc.test c = true := by
  obtain ⟨u, v, rfl, _, hv⟩ := h
  obtain ⟨c, rfl, hc⟩ := hv
  refine ⟨c, ?_, hc⟩
  rw [List.getLast?_append]
  rfl

/-- Ordered concatenation of a list of expressions. -/
def cat : List RE → RE
  | [] => .eps
  | [r] => r
  | r :: rest => .seq r (cat rest)

/-- Ordered alternation of a nonempty list of expressions (left
alternative preferred, as in Python). -/
def altN : List RE → RE
  | [] => .eps
  | [r] => r
  | r :: rest => .alt r (altN rest)

/-- Exactly `n` repetitions of a character class (`{n}`). -/
def repC (cc : CC) : Nat → RE
  | 0 => .eps
  | n + 1 => .seq (.cls cc) (repC cc n)

/-- At least `n` repetitions of a character class (`{n,}`, greedy). -/
def atLeastC (cc : CC) (n : Nat) : RE :=
  .seq (repC cc n) (.star cc false)

/-- One or more repetitions of a character class (`+`, greedy). -/
def plusC (cc : CC) : RE :=
  .seq (.cls cc) (.star cc false)

/-- Class holding exactly the listed characters. -/
def oneOf (ci : Bool) (cs : List Char) : CC :=
  ⟨cs.map .ch, false, ci⟩

/-- Single literal character. -/
def chC (ci : Bool) (c : Char) : RE :=
  .cls (oneOf ci [c])

/-- Literal word (`litS true` is the case-insensitive reading). -/
def litS (ci : Bool) (l : List Char) : RE :=
  l.foldr (fun c r => .seq (chC ci c) r) .eps

/-- Class `[a-zA-Z0-9]`. -/
def alnumCC (ci : Bool) : CC :=
  ⟨[.rng 'a' 'z', .rng 'A' 'Z', .rng '0' '9'], false, ci⟩

/-- Class `\s`. -/
def wsCC (ci : Bool) : CC := ⟨[.wsp], false, ci⟩

/-- Class `\w`. -/
def wordCC (ci : Bool) : CC := ⟨[.wrd], false, ci⟩

/-- Class `.` (any character but a newline). -/
def dotCC : CC := ⟨[.ch '\n'], true, false⟩

/-- Class `["\']` of the secret patterns (under `(?i)`). -/
def quoteCC : CC := oneOf true ['"', '\'']

/-- Class `[^"\']` (value of the password pattern). -/
def notQuoteCC : CC := ⟨[.ch '"', .ch '\''], true, true⟩

/-- Class `[a-zA-Z0-9_\-\.]` (token characters). -/
def tokenCC : CC :=
  ⟨[.rng 'a' 'z', .rng 'A' 'Z', .rng '0' '9', .ch '_', .ch '-', .ch '.'], false, true⟩

/-- Class `[0-9A-Z]` of the AWS access-key pattern (under `(?i)`). -/
def upAlnumCC : CC := ⟨[.rng '0' '9', .rng 'A' 'Z'], false, true⟩

/-- Class `[a-zA-Z0-9/+=]` of the AWS secret-key pattern. -/
def b64CC : CC :=
  ⟨[.rng 'a' 'z', .rng 'A' 'Z', .rng '0' '9', .ch '/', .ch '+', .ch '='], false, true⟩

/-- Class `[^"\'\s]` of the connection-string pattern. -/
def hostCC : CC := ⟨[.ch '"', .ch '\'', .wsp], true, true⟩

/-- Class `['-', '_']` used in `[_-]?`. -/
def usDashCC : CC := oneOf true ['_', '-']

/-- Class `[=:]`. -/
def eqColonCC : CC := oneOf true ['=', ':']

/-- Secret pattern `(?i)(api[_-]?key|apikey)\s*[=:]\s*["\'][a-zA-Z0-9]{16,}["\']`
(from `SECRET_PATTERNS`, "API Key"). -/
def secPatApiKey : RE :=
  .seq (cat [
    .alt (cat [litS true ("api".data), .opt (.cls usDashCC), litS true ("key".data)])
      (litS true ("apikey".data)),
    .star (wsCC true) false,
    .cls eqColonCC,
    .star (wsCC true) false,
    .cls quoteCC,
    atLeastC (alnumCC true) 16]) (.cls quoteCC)

/-- Secret pattern `(?i)(secret|password|passwd|pwd)\s*[=:]\s*["\'][^"\']{8,}["\']`
("Password/Secret"). -/
def secPatPassword : RE :=
  .seq (cat [
    altN [litS true ("secret".data), litS true ("password".data),
      litS true ("passwd".data), litS true ("pwd".data)],
    .star (wsCC true) false,
    .cls eqColonCC,
    .star (wsCC true) false,
    .cls quoteCC,
    atLeastC notQuoteCC 8]) (.cls quoteCC)

/-- Secret pattern `(?i)(token|auth[_-]?token|access[_-]?token)\s*[=:]\s*["\'][a-zA-Z0-9_\-\.]{20,}["\']`
("Token"). -/
def secPatToken : RE :=
  .seq (cat [
    altN [litS true ("token".data),
      cat [litS true ("auth".data), .opt (.cls usDashCC), litS true ("token".data)],
      cat [litS true ("access".data), .opt (.cls usDashCC), litS true ("token".data)]],
    .star (wsCC true) false,
    .cls eqColonCC,
    .star (wsCC true) false,
    .cls quoteCC,
    atLeastC tokenCC 20]) (.cls quoteCC)

/-- Secret pattern `(?i)AKIA[0-9A-Z]{16}` ("AWS Access Key"). -/
def secPatAkia : RE :=
  .seq (litS true ("AKIA".data)) (repC upAlnumCC 16)

/-- Secret pattern `(?i)(aws[_-]?secret|secret[_-]?key)\s*[=:]\s*["\'][a-zA-Z0-9/+=]{40}["\']`
("AWS Secret Key"). -/
def secPatAwsSecret : RE :=
  .seq (cat [
    .alt (cat [litS true ("aws".data), .opt (.cls usDashCC), litS true ("secret".data)])
      (cat [litS true ("secret".data), .opt (.cls usDashCC), litS true ("key".data)]),
    .star (wsCC true) false,
    .cls eqColonCC,
    .star (wsCC true) false,
    .cls quoteCC,
    repC b64CC 40]) (.cls quoteCC)

/-- Class of the single dash, case-sensitive. -/
def dashCC : CC := oneOf false ['-']

/-- Secret pattern `-----BEGIN\s+(RSA\s+)?PRIVATE\s+KEY-----` ("Private Key",
case-sensitive). -/
def secPatPrivKey : RE :=
  .seq (cat [
    litS false ("-----BEGIN".data),
    plusC (wsCC false),
    .opt (cat [litS false ("RSA".data), plusC (wsCC false)]),
    litS false ("PRIVATE".data),
    plusC (wsCC false),
    litS false ("KEY".data),
    litS false ("----".data)]) (.cls dashCC)

/-- Class of the single `@`, under `(?i)`. -/
def atCC : CC := oneOf true ['@']

/-- Secret pattern `(?i)(mysql|postgres|mongodb|redis)://[^"\'\s]+:[^"\'\s]+@`
("Database Connection String"). -/
def secPatDbConn : RE :=
  .seq (cat [
    altN [litS true ("mysql".data), litS true ("postgres".data),
      litS true ("mongodb".data), litS true ("redis".data)],
    litS true ("://".data),
    plusC hostCC,
    chC true ':',
    plusC hostCC]) (.cls atCC)

/-- Secret pattern `(?i)bearer\s+[a-zA-Z0-9_\-\.]{20,}` ("Bearer Token"). -/
def secPatBearer : RE :=
  cat [litS true ("bearer".data), plusC (wsCC true), atLeastC tokenCC 20]

/-- Secret pattern `ghp_[a-zA-Z0-9]{36}` ("GitHub Personal Access Token",
case-sensitive). -/
def secPatGhp : RE :=
  .seq (litS false ("ghp_".data)) (repC (alnumCC false) 36)

/-- Secret pattern `sk-[a-zA-Z0-9]{48}` ("OpenAI API Key", case-sensitive). -/
def secPatOpenai : RE :=
  .seq (litS false ("sk-".data)) (repC (alnumCC false) 48)

/-- The `SECRET_PATTERNS` table of `src/agents/secrets_agent.py`. -/
def SECRET_PATTERNS : List (RE × String) :=
  [(secPatApiKey, "API Key"),
   (secPatPassword, "Password/Secret"),
   (secPatToken, "Token"),
   (secPatAkia, "AWS Access Key"),
   (secPatAwsSecret, "AWS Secret Key"),
   (secPatPrivKey, "Private Key"),
   (secPatDbConn, "Database Connection String"),
   (secPatBearer, "Bearer Token"),
   (secPatGhp, "GitHub Personal Access Token"),
   (secPatOpenai, "OpenAI API Key")]

/-- Embedding of a loaded file dict `{'path', 'content', 'extension'}`
(the `CodeFile` of the data model); text is a list of characters. -/
structure CodeFile where
  path : String
  content : List Char
  extension : String
  deriving DecidableEq

/-- Embedding of Python `content.split('\n')`: `[""]` on the empty
string, with a trailing empty piece after a final newline. -/
def splitNl : List Char → List (List Char)
  | [] => [[]]
  | c :: rest =>
    if c = '\n' then [] :: splitNl rest
    else
      match splitNl rest with
      | [] => [[c]]
      | l :: ls => (c :: l) :: ls

/-- Finding dict produced by `detect_secrets` (keys `file`, `line`,
`type`, `severity`, `matched`, `explanation`). -/
structure SecretFinding where
  file : String
  line : Nat
  type : String
  severity : String
  matched : List Char
  explanation : String
  deriving DecidableEq

/-- The fixed redaction marker appended to the masked evidence. -/
def redactMarker : List Char := "***REDACTED***".data

/-- Embedding of `detect_secrets` of `src/agents/secrets_agent.py`:
for every file, every line (1-based) and every secret pattern, each
`finditer` match yields one HIGH finding whose evidence is the first 10
characters of the match plus the redaction marker. -/
def detect_secrets (files : List CodeFile) : List SecretFinding :=
  files.flatMap fun f =>
    ((splitNl f.content).enum).flatMap fun p =>
      SECRET_PATTERNS.flatMap fun pr =>
        (finditer pr.1 p.2).map fun m =>
          ⟨f.path, p.1 + 1, pr.2, "HIGH", m.take 10 ++ redactMarker,
            "Potential " ++ pr.2 ++
              " found. Hardcoded secrets should be stored in environment variables or a secrets manager."⟩

theorem redactMarker_length : redactMarker.length = 14 := by decide

theorem infix_key {m s t : List Char}
    (he : (s ++ m) ++ t = m.take 10 ++ redactMarker) (hlen : 12 ≤ m.length) :
    ∀ j, j < m.length → 10 ≤ s.length + j →
      m[j]? = redactMarker[(s.length + j) - 10]? := by
  intro j hj hp
  have hm10 : (m.take 10).length = 10 := by
    rw [List.length_take]; omega
  have h1 : ((s ++ m) ++ t)[s.length + j]? = m[j]? := by
    rw [List.getElem?_append_left (by simp only [List.length_append]; omega),
      List.getElem?_append_right (by omega)]
    congr 1
    omega
  have h2 : (m.take 10 ++ redactMarker)[s.length + j]? =
      redactMarker[(s.length + j) - 10]? := by
    rw [List.getElem?_append_right (by rw [hm10]; omega), hm10]
  rw [← h1, he, h2]

theorem infix_len_bound {m s t : List Char}
    (he : (s ++ m) ++ t = m.take 10 ++ redactMarker) (hlen : 12 ≤ m.length) :
    s.length + m.length + t.length = 24 := by
  have := congrArg List.length he
  simp only [List.length_append, redactMarker_length, List.length_take] at this
  omega

/-- Occurrence of the full match inside the masked evidence forces a
star character inside the match. -/
theorem infix_star_mem {m : List Char} (hlen : 12 ≤ m.length)
    (hinf : m <:+: (m.take 10 ++ redactMarker)) : '*' ∈ m := by
  obtain ⟨s, t, he⟩ := hinf
  have hb := infix_len_bound he hlen
  rcases Nat.lt_or_ge s.length 11 with hs | hs
  · have hj : 10 - s.length < m.length := by omega
    have hkey := infix_key he hlen (10 - s.length) hj (by omega)
    have h10 : s.length + (10 - s.length) = 10 := by omega
    rw [h10] at hkey
    have : m[10 - s.length]? = some '*' := by
      rw [hkey]; decide
    exact List.getElem?_mem this
  · have hs12 : s.length ≤ 12 := by omega
    have hkey := infix_key he hlen 0 (by omega) (by omega)
    have : s.length + 0 - 10 = 1 ∨ s.length + 0 - 10 = 2 := by omega
    have hres : m[0]? = some '*' := by
      rcases this with h | h <;> rw [hkey, h] <;> decide
    exact List.getElem?_mem hres

/-- Occurrence of the full match inside the masked evidence forces the
last character of the match to be a marker character. -/
theorem infix_last_mem {m : List Char} {c : Char} (hlen : 12 ≤ m.length)
    (hlast : m.getLast? = some c)
    (hinf : m <:+: (m.take 10 ++ redactMarker)) : c ∈ redactMarker := by
  obtain ⟨s, t, he⟩ := hinf
  have hb := infix_len_bound he hlen
  have hkey := infix_key he hlen (m.length - 1) (by omega) (by omega)
  rw [List.getLast?_eq_getElem?] at hlast
  rw [hlast] at hkey
  exact List.getElem?_mem hkey.symm

theorem quote_marker_free : ∀ x ∈ redactMarker, quoteCC.test x = false := by decide

theorem dash_marker_free : ∀ x ∈ redactMarker, dashCC.test x = false := by decide

theorem at_marker_free : ∀ x ∈ redactMarker, atCC.test x = false := by decide

/-- No word of length at least 12 of a language whose words end in a
character foreign to the marker can occur inside its own masked
evidence. -/
theorem no_self_infix_last {body : RE} {cc : CC} {m : List Char}
    (hlang : Lang (.seq body (.cls cc)) m) (h12 : 12 ≤ m.length)
    (hfree : ∀ x ∈ redactMarker, cc.test x = false) :
    ¬ m <:+: m.take 10 ++ redactMarker := by
  intro hinf
  obtain ⟨c, hlast, hc⟩ := lang_seq_cls_last hlang
  have hmem := infix_last_mem h12 hlast hinf
  rw [hfree c hmem] at hc
  cases hc

/-- No star-free word of length at least 12 can occur inside its own
masked evidence. -/
theorem no_self_infix_star {re : RE} {m : List Char}
    (hlang : Lang re m) (h12 : 12 ≤ m.length) (hav : avoidChar re '*' = true) :
    ¬ m <:+: m.take 10 ++ redactMarker := fun hinf =>
  avoidChar_sound re '*' m hav hlang (infix_star_mem h12 hinf)

/-- C2: evidence of every secret finding is exactly the first 10
characters of the regex match plus the fixed redaction marker, every
possible match of the secret patterns is strictly longer than 10
characters, and the full matched secret text never occurs inside the
evidence. -/
theorem spec_secret_evidence_masked :
    ∀ (files : List CodeFile) (f : SecretFinding), f ∈ detect_secrets files →
    ∃ m : List Char,
      (∃ pr ∈ SECRET_PATTERNS, Lang pr.1 m) ∧
      f.matched = m.take 10 ++ redactMarker ∧
      10 < m.length ∧
      ¬ m <:+: f.matched := by
  intro files f hf
  rw [detect_secrets] at hf
  simp only [List.mem_flatMap, List.mem_map] at hf
  obtain ⟨fi, hfi, p, hp, pr, hpr, m, hm, hf⟩ := hf
  subst hf
  have hlang : Lang pr.1 m := finditer_sound hm
  refine ⟨m, ⟨pr, hpr, hlang⟩, rfl, ?_⟩
  simp only
  have main : 12 ≤ m.length ∧ ¬ m <:+: m.take 10 ++ redactMarker := by
    simp only [SECRET_PATTERNS, List.mem_cons, List.not_mem_nil, or_false] at hpr
    rcases hpr with rfl | rfl | rfl | rfl | rfl | rfl | rfl | rfl | rfl | rfl <;>
      simp only at hlang <;>
      refine And.intro (le_trans (by decide) (minLen_sound _ _ hlang)) ?_
    · exact no_self_infix_last hlang
        (le_trans (by decide) (minLen_sound _ _ hlang)) quote_marker_free
    · exact no_self_infix_last hlang
        (le_trans (by decide) (minLen_sound _ _ hlang)) quote_marker_free
    · exact no_self_infix_last hlang
        (le_trans (by decide) (minLen_sound _ _ hlang)) quote_marker_free
    · exact no_self_infix_star hlang
        (le_trans (by decide) (minLen_sound _ _ hlang)) (by decide)
    · exact no_self_infix_last hlang
        (le_trans (by decide) (minLen_sound _ _ hlang)) quote_marker_free
    · exact no_self_infix_last hlang
        (le_trans (by decide) (minLen_sound _ _ hlang)) dash_marker_free
    · exact no_self_infix_last hlang
        (le_trans (by decide) (minLen_sound _ _ hlang)) at_marker_free
    · exact no_self_infix_star hlang
        (le_trans (by decide) (minLen_sound _ _ hlang)) (by decide)
    · exact no_self_infix_star hlang
        (le_trans (by decide) (minLen_sound _ _ hlang)) (by decide)
    · exact no_self_infix_star hlang
        (le_trans (by decide) (minLen_sound _ _ hlang)) (by decide)
  exact ⟨by omega, main.2⟩

/-- Class `[^}]` of the f-string pattern. -/
def notCloseBraceCC : CC := ⟨[.ch (Char.ofNat 125)], true, true⟩

/-- Class `[a-zA-Z_]` (identifier start). -/
def identStartCC : CC := ⟨[.rng 'a' 'z', .rng 'A' 'Z', .ch '_'], false, true⟩

/-- Class `[a-zA-Z0-9_]` (identifier tail). -/
def identCC : CC := ⟨[.rng 'a' 'z', .rng 'A' 'Z', .rng '0' '9', .ch '_'], false, true⟩

/-- The five/six SQL keywords alternation used by the patterns. -/
def sqlKw6 : RE :=
  altN [litS true ("SELECT".data), litS true ("INSERT".data), litS true ("UPDATE".data),
    litS true ("DELETE".data), litS true ("DROP".data), litS true ("CREATE".data)]

/-- Keyword alternation without CREATE. -/
def sqlKw5 : RE :=
  altN [litS true ("SELECT".data), litS true ("INSERT".data), litS true ("UPDATE".data),
    litS true ("DELETE".data), litS true ("DROP".data)]

/-- SQL pattern `(?i)(SELECT|INSERT|UPDATE|DELETE|DROP|CREATE)\s+.*\+\s*[a-zA-Z_][a-zA-Z0-9_]*`. -/
def sqlPatConcat : RE :=
  cat [sqlKw6, plusC (wsCC true), .star dotCC false, chC true '+',
    .star (wsCC true) false, .cls identStartCC, .star identCC false]

/-- SQL pattern `(?i)f["\'].*?(SELECT|INSERT|UPDATE|DELETE|DROP)\s+.*?\{[^}]+\}.*?["\']`. -/
def sqlPatFString : RE :=
  cat [chC true 'f', .cls quoteCC, .star dotCC true, sqlKw5, plusC (wsCC true),
    .star dotCC true, chC true (Char.ofNat 123), plusC notCloseBraceCC,
    chC true (Char.ofNat 125), .star dotCC true, .cls quoteCC]

/-- SQL pattern `(?i)["\'].*?(SELECT|INSERT|UPDATE|DELETE|DROP)\s+.*?["\']\.format\s*\(`. -/
def sqlPatFormat : RE :=
  cat [.cls quoteCC, .star dotCC true, sqlKw5, plusC (wsCC true), .star dotCC true,
    .cls quoteCC, chC true '.', litS true ("format".data), .star (wsCC true) false,
    chC true '(']

/-- SQL pattern `(?i)["\'].*?(SELECT|INSERT|UPDATE|DELETE|DROP)\s+.*?%s.*?["\'].*?%`. -/
def sqlPatPercent : RE :=
  cat [.cls quoteCC, .star dotCC true, sqlKw5, plusC (wsCC true), .star dotCC true,
    litS true ("%s".data), .star dotCC true, .cls quoteCC, .star dotCC true, chC true '%']

/-- SQL pattern `(?i)\.execute\s*\(\s*["\'].*?\+`. -/
def sqlPatExecConcat : RE :=
  cat [chC true '.', litS true ("execute".data), .star (wsCC true) false, chC true '(',
    .star (wsCC true) false, .cls quoteCC, .star dotCC true, chC true '+']

/-- SQL pattern `(?i)\.execute\s*\(\s*f["\']`. -/
def sqlPatExecFString : RE :=
  cat [chC true '.', litS true ("execute".data), .star (wsCC true) false, chC true '(',
    .star (wsCC true) false, chC true 'f', .cls quoteCC]

/-- SQL pattern `(?i)\.query\s*\(\s*["\'].*?\$\{`. -/
def sqlPatQueryTpl : RE :=
  cat [chC true '.', litS true ("query".data), .star (wsCC true) false, chC true '(',
    .star (wsCC true) false, .cls quoteCC, .star dotCC true, chC true '$',
    chC true (Char.ofNat 123)]

/-- SQL pattern `(?i)(raw|query)\s*\(\s*` followed by a backtick, lazy gap
and a `${` interpolation opener. -/
def sqlPatRawTpl : RE :=
  cat [.alt (litS true ("raw".data)) (litS true ("query".data)),
    .star (wsCC true) false, chC true '(', .star (wsCC true) false,
    chC true (Char.ofNat 96), .star dotCC true, chC true '$',
    chC true (Char.ofNat 123)]

/-- The `SQL_PATTERNS` table of `src/agents/sql_agent.py`. -/
def SQL_PATTERNS : List (RE × String) :=
  [(sqlPatConcat, "String concatenation in SQL query"),
   (sqlPatFString, "f-string interpolation in SQL query"),
   (sqlPatFormat, ".format() in SQL query"),
   (sqlPatPercent, "% formatting in SQL query"),
   (sqlPatExecConcat, "String concatenation in execute()"),
   (sqlPatExecFString, "f-string in execute()"),
   (sqlPatQueryTpl, "Template literal with variable in query()"),
   (sqlPatRawTpl, "Template literal interpolation in raw query")]

/-- Python whitespace for `str.strip()` (ASCII reading, the same set as
`\s`). -/
def isPyWS (c : Char) : Bool := CItem.test c .wsp

/-- Embedding of Python `line.strip()`. -/
def pyStrip (s : List Char) : List Char :=
  ((s.dropWhile isPyWS).reverse.dropWhile isPyWS).reverse

/-- Comment check of `detect_sql_injection`: the stripped line starts
with one of the three recognized comment markers. -/
def isCommentLine (stripped : List Char) : Bool :=
  ("#".data).isPrefixOf stripped || ("//".data).isPrefixOf stripped ||
    ("*".data).isPrefixOf stripped

/-- Finding dict produced by `detect_sql_injection`. -/
structure SqlFinding where
  file : String
  line : Nat
  type : String
  severity : String
  code_snippet : List Char
  vulnerability : String
  explanation : String
  deriving DecidableEq

/-- Explanation text of a SQL finding. -/
def sqlExpl (vulnType : String) : String :=
  vulnType ++
    " detected. Use parameterized queries or prepared statements instead of string interpolation to prevent SQL injection attacks."

/-- Embedding of `detect_sql_injection` of `src/agents/sql_agent.py`:
per line, comment lines (stripped form starting with `#`, `//` or `*`)
are skipped; otherwise each matching pattern yields one CRITICAL finding
whose evidence is the first 100 characters of the stripped line. -/
def detect_sql_injection (files : List CodeFile) : List SqlFinding :=
  files.flatMap fun f =>
    ((splitNl f.content).enum).flatMap fun p =>
      if isCommentLine (pyStrip p.2) then []
      else
        SQL_PATTERNS.flatMap fun pr =>
          if reTest pr.1 p.2 then
            [⟨f.path, p.1 + 1, "SQL Injection", "CRITICAL", (pyStrip p.2).take 100,
              pr.2, sqlExpl pr.2⟩]
          else []

/-- Class `[^)]`. -/
def notParenCC : CC := ⟨[.ch ')'], true, true⟩

/-- Route pattern `@(app|router)\.(get|post|put|delete|patch)\s*\(\s*["\'][^"\']*["\']`
(FastAPI/Flask; searched with `re.IGNORECASE`). -/
def routePatPy : RE :=
  cat [chC true '@', .alt (litS true ("app".data)) (litS true ("router".data)),
    chC true '.',
    altN [litS true ("get".data), litS true ("post".data), litS true ("put".data),
      litS true ("delete".data), litS true ("patch".data)],
    .star (wsCC true) false, chC true '(', .star (wsCC true) false,
    .cls quoteCC, .star notQuoteCC false, .cls quoteCC]

/-- Route pattern `(app|router)\.(get|post|put|delete|patch)\s*\(\s*["\'][^"\']+["\']`
(Express.js). -/
def routePatJs : RE :=
  cat [.alt (litS true ("app".data)) (litS true ("router".data)),
    chC true '.',
    altN [litS true ("get".data), litS true ("post".data), litS true ("put".data),
      litS true ("delete".data), litS true ("patch".data)],
    .star (wsCC true) false, chC true '(', .star (wsCC true) false,
    .cls quoteCC, plusC notQuoteCC, .cls quoteCC]

/-- Route pattern `@(Get|Post|Put|Delete|Patch)\s*\(\s*["\']?[^)]*["\']?\s*\)`
(NestJS decorators). -/
def routePatTs : RE :=
  cat [chC true '@',
    altN [litS true ("Get".data), litS true ("Post".data), litS true ("Put".data),
      litS true ("Delete".data), litS true ("Patch".data)],
    .star (wsCC true) false, chC true '(', .star (wsCC true) false,
    .opt (.cls quoteCC), .star notParenCC false, .opt (.cls quoteCC),
    .star (wsCC true) false, chC true ')']

/-- The `ROUTE_PATTERNS` table of `src/agents/auth_agent.py`. -/
def ROUTE_PATTERNS : List (RE × String) :=
  [(routePatPy, "Python"), (routePatJs, "JavaScript"), (routePatTs, "TypeScript")]

/-- Auth pattern `@(require|login_required|authenticated|auth|jwt_required|token_required|permission|protected)`. -/
def authPatDecor : RE :=
  .seq (chC true '@')
    (altN [litS true ("require".data), litS true ("login_required".data),
      litS true ("authenticated".data), litS true ("auth".data),
      litS true ("jwt_required".data), litS true ("token_required".data),
      litS true ("permission".data), litS true ("protected".data)])

/-- Auth pattern `@(Depends\s*\(\s*\w*auth|Depends\s*\(\s*\w*token|Depends\s*\(\s*get_current_user)`. -/
def authPatDepends : RE :=
  .seq (chC true '@')
    (altN [
      cat [litS true ("Depends".data), .star (wsCC true) false, chC true '(',
        .star (wsCC true) false, .star (wordCC true) false, litS true ("auth".data)],
      cat [litS true ("Depends".data), .star (wsCC true) false, chC true '(',
        .star (wsCC true) false, .star (wordCC true) false, litS true ("token".data)],
      cat [litS true ("Depends".data), .star (wsCC true) false, chC true '(',
        .star (wsCC true) false, litS true ("get_current_user".data)]])

/-- Auth pattern `(isAuthenticated|requireAuth|authMiddleware|verifyToken|authenticate)\s*[,\)]`. -/
def authPatMiddleware : RE :=
  cat [altN [litS true ("isAuthenticated".data), litS true ("requireAuth".data),
    litS true ("authMiddleware".data), litS true ("verifyToken".data),
    litS true ("authenticate".data)],
    .star (wsCC true) false, .cls (oneOf true [',', ')'])]

/-- Auth pattern `(passport\.authenticate|jwt\.verify)`. -/
def authPatLib : RE :=
  .alt (cat [litS true ("passport".data), chC true '.', litS true ("authenticate".data)])
    (cat [litS true ("jwt".data), chC true '.', litS true ("verify".data)])

/-- Auth pattern `@(UseGuards|AuthGuard)`. -/
def authPatGuard : RE :=
  .seq (chC true '@') (.alt (litS true ("UseGuards".data)) (litS true ("AuthGuard".data)))

/-- The `AUTH_PATTERNS` table of `src/agents/auth_agent.py`. -/
def AUTH_PATTERNS : List RE :=
  [authPatDecor, authPatDepends, authPatMiddleware, authPatLib, authPatGuard]

/-- File-level auth pattern `router\.use\s*\(\s*(authenticate|authMiddleware|protect)`. -/
def fileAuthPatRouter : RE :=
  cat [litS true ("router".data), chC true '.', litS true ("use".data),
    .star (wsCC true) false, chC true '(', .star (wsCC true) false,
    altN [litS true ("authenticate".data), litS true ("authMiddleware".data),
      litS true ("protect".data)]]

/-- File-level auth pattern `app\.use\s*\(\s*(authenticate|authMiddleware|protect)`. -/
def fileAuthPatApp : RE :=
  cat [litS true ("app".data), chC true '.', litS true ("use".data),
    .star (wsCC true) false, chC true '(', .star (wsCC true) false,
    altN [litS true ("authenticate".data), litS true ("authMiddleware".data),
      litS true ("protect".data)]]

/-- The `FILE_LEVEL_AUTH_PATTERNS` table of `src/agents/auth_agent.py`. -/
def FILE_LEVEL_AUTH_PATTERNS : List RE :=
  [fileAuthPatRouter, fileAuthPatApp]

/-- The `SENSITIVE_OPS` pattern
`(?i)(delete|remove|drop|update|create|insert|modify|admin|user|password|payment|checkout)`. -/
def sensitivePat : RE :=
  altN [litS true ("delete".data), litS true ("remove".data), litS true ("drop".data),
    litS true ("update".data), litS true ("create".data), litS true ("insert".data),
    litS true ("modify".data), litS true ("admin".data), litS true ("user".data),
    litS true ("password".data), litS true ("payment".data), litS true ("checkout".data)]

/-- The mutating-verb check `\.(post|put|delete|patch)` (searched with
`re.IGNORECASE` on the route line). -/
def methodPat : RE :=
  .seq (chC true '.')
    (altN [litS true ("post".data), litS true ("put".data), litS true ("delete".data),
      litS true ("patch".data)])

/-- Finding dict produced by `detect_missing_auth`. -/
structure AuthFinding where
  file : String
  line : Nat
  type : String
  severity : String
  endpoint : List Char
  framework : String
  explanation : String
  deriving DecidableEq

/-- File-level override check of `detect_missing_auth`. -/
def hasFileLevelAuth (content : List Char) : Bool :=
  FILE_LEVEL_AUTH_PATTERNS.any fun pat => reTest pat content

/-- Context window of a route at line index `i`: lines
`[max(0, i-5), min(len, i+5))` joined with newlines (Python slice
`lines[i-5 : i+5]` under clamping). -/
def contextWindow (lines : List (List Char)) (i : Nat) : List Char :=
  List.intercalate ['\n'] ((lines.take (i + 5)).drop (i - 5))

/-- Auth-presence check on the context window. -/
def windowHasAuth (lines : List (List Char)) (i : Nat) : Bool :=
  AUTH_PATTERNS.any fun pat => reTest pat (contextWindow lines i)

/-- Explanation text of a missing-auth finding. -/
def authExpl (sens : Bool) : String :=
  "This endpoint appears to lack authentication middleware. " ++
    (if sens then "It performs sensitive operations that should require authentication."
     else "Mutating endpoints (POST/PUT/DELETE/PATCH) should typically require authentication.")

/-- Findings of one line of one file: one candidate finding per route
pattern whose search succeeds, kept when no auth pattern occurs in the
context window and the line is mutating or sensitive. -/
def lineFindingsAuth (path : String) (lines : List (List Char)) (i : Nat)
    (ln : List Char) : List AuthFinding :=
  ROUTE_PATTERNS.flatMap fun pr =>
    ((searchMatch pr.1 ln).map fun m =>
      if !(windowHasAuth lines i) && (reTest methodPat ln || reTest sensitivePat ln) then
        [⟨path, i + 1, "Missing Authentication",
          if reTest sensitivePat ln then "HIGH" else "MEDIUM",
          m.take 80, pr.2, authExpl (reTest sensitivePat ln)⟩]
      else []).getD []

/-- Per-file part of `detect_missing_auth`: the file-level override
suppresses everything, otherwise every line is scanned. -/
def authFileFindings (fi : CodeFile) : List AuthFinding :=
  if hasFileLevelAuth fi.content then []
  else
    (splitNl fi.content).enum.flatMap fun p =>
      lineFindingsAuth fi.path (splitNl fi.content) p.1 p.2

/-- Embedding of `detect_missing_auth` of `src/agents/auth_agent.py`. -/
def detect_missing_auth (files : List CodeFile) : List AuthFinding :=
  files.flatMap authFileFindings

/-- Characterization of the findings of one line: one finding per route
pattern whose search succeeds, gated by the auth window and the
mutating-or-sensitive test. -/
theorem mem_lineFindingsAuth {path : String} {lines : List (List Char)} {i : Nat}
    {ln : List Char} {f : AuthFinding} :
    f ∈ lineFindingsAuth path lines i ln ↔
      ∃ pr ∈ ROUTE_PATTERNS, ∃ m, searchMatch pr.1 ln = some m ∧
        windowHasAuth lines i = false ∧
        (reTest methodPat ln || reTest sensitivePat ln) = true ∧
        f = ⟨path, i + 1, "Missing Authentication",
          if reTest sensitivePat ln then "HIGH" else "MEDIUM",
          m.take 80, pr.2, authExpl (reTest sensitivePat ln)⟩ := by
  rw [lineFindingsAuth]
  simp only [List.mem_flatMap]
  constructor
  · rintro ⟨pr, hpr, hf⟩
    cases hsm : searchMatch pr.1 ln with
    | none => rw [hsm] at hf; simp at hf
    | some m =>
      rw [hsm] at hf
      simp only [Option.map_some', Option.getD_some] at hf
      by_cases hcond :
          (!(windowHasAuth lines i) && (reTest methodPat ln || reTest sensitivePat ln)) = true
      · rw [if_pos hcond] at hf
        simp only [List.mem_singleton] at hf
        rw [Bool.and_eq_true, Bool.not_eq_true'] at hcond
        exact ⟨pr, hpr, m, hsm, hcond.1, hcond.2, hf⟩
      · rw [if_neg hcond] at hf
        simp at hf
  · rintro ⟨pr, hpr, m, hsm, hw, hor, rfl⟩
    refine ⟨pr, hpr, ?_⟩
    rw [hsm]
    simp only [Option.map_some', Option.getD_some]
    rw [if_pos (by rw [hw, hor]; rfl)]
    simp

/-- Every finding of a line carries that line's 1-based number. -/
theorem lineFindingsAuth_line {path : String} {lines : List (List Char)} {i : Nat}
    {ln : List Char} {f : AuthFinding} (h : f ∈ lineFindingsAuth path lines i ln) :
    f.line = i + 1 := by
  obtain ⟨pr, _, m, _, _, _, rfl⟩ := mem_lineFindingsAuth.mp h
  rfl

/-- C3: a file whose content matches a file-level auth-installation
pattern contributes zero findings, whatever routes it declares, and
`detect_missing_auth` is the concatenation of the per-file findings. -/
theorem spec_file_level_override :
    ∀ fi : CodeFile, hasFileLevelAuth fi.content = true →
      authFileFindings fi = [] ∧
      ∀ files : List CodeFile, detect_missing_auth files = files.flatMap authFileFindings := by
  intro fi h
  exact ⟨by rw [authFileFindings, if_pos h], fun _ => rfl⟩

/-- File installing `router.use(authenticate)` followed by an unprotected
mutating sensitive route. -/
def fileAuthWitFile : CodeFile :=
  ⟨"r.js", ("router.use(authenticate)\nrouter.post(\"/admin\", handler)").data, ".js"⟩

theorem spec_file_level_override_witness :
    hasFileLevelAuth fileAuthWitFile.content = true ∧
      (authFileFindings fileAuthWitFile = [] ∧
        ∀ files : List CodeFile,
          detect_missing_auth files = files.flatMap authFileFindings) :=
  ⟨by decide, spec_file_level_override fileAuthWitFile (by decide)⟩

/-- Mutating-verb restriction of the FastAPI/Flask route pattern. -/
def routePatPyMut : RE :=
  cat [chC true '@', .alt (litS true ("app".data)) (litS true ("router".data)),
    chC true '.',
    altN [litS true ("post".data), litS true ("put".data),
      litS true ("delete".data), litS true ("patch".data)],
    .star (wsCC true) false, chC true '(', .star (wsCC true) false,
    .cls quoteCC, .star notQuoteCC false, .cls quoteCC]

/-- Mutating-verb restriction of the Express route pattern. -/
def routePatJsMut : RE :=
  cat [.alt (litS true ("app".data)) (litS true ("router".data)),
    chC true '.',
    altN [litS true ("post".data), litS true ("put".data),
      litS true ("delete".data), litS true ("patch".data)],
    .star (wsCC true) false, chC true '(', .star (wsCC true) false,
    .cls quoteCC, plusC notQuoteCC, .cls quoteCC]

/-- Mutating-verb restriction of the NestJS route pattern. -/
def routePatTsMut : RE :=
  cat [chC true '@',
    altN [litS true ("Post".data), litS true ("Put".data),
      litS true ("Delete".data), litS true ("Patch".data)],
    .star (wsCC true) false, chC true '(', .star (wsCC true) false,
    .opt (.cls quoteCC), .star notParenCC false, .opt (.cls quoteCC),
    .star (wsCC true) false, chC true ')']

/-- Modelled from the spec: "the route is bound to a mutating verb
POST/PUT/DELETE/PATCH", read as: the `j`-th route pattern restricted to
the mutating verbs matches the line (the source instead greps the line
for a literal `.post/.put/.delete/.patch` token). -/
def specRouteMutating (j : Nat) (ln : List Char) : Bool :=
  reTest ([routePatPyMut, routePatJsMut, routePatTsMut].getD j (.cls ⟨[], false, false⟩)) ln

/-- Claim C4 instantiated at one file: a route match yields a finding
iff no auth pattern is in the window and the route is bound to a
mutating verb or the line is sensitive; severity HIGH iff sensitive. -/
def C4ClaimAt (fi : CodeFile) : Prop :=
  hasFileLevelAuth fi.content = false →
  ∀ j i, j < ROUTE_PATTERNS.length → i < (splitNl fi.content).length →
  (searchMatch (ROUTE_PATTERNS.getD j (.eps, "")).1
      ((splitNl fi.content).getD i [])).isSome = true →
  ((∃ f, f ∈ detect_missing_auth [fi] ∧ f.line = i + 1 ∧
      f.framework = (ROUTE_PATTERNS.getD j (.eps, "")).2) ↔
    (windowHasAuth (splitNl fi.content) i = false ∧
      (specRouteMutating j ((splitNl fi.content).getD i []) ||
        reTest sensitivePat ((splitNl fi.content).getD i [])) = true)) ∧
  ∀ f, f ∈ detect_missing_auth [fi] → f.line = i + 1 →
    f.severity = (if reTest sensitivePat ((splitNl fi.content).getD i []) = true
      then "HIGH" else "MEDIUM")

/-- NestJS file declaring a POST route with no auth and no sensitive
keyword. -/
def c4File : CodeFile := ⟨"routes.ts", ("@Post(\"/submit\")").data, ".ts"⟩

/-- C4 counterexample: on `@Post("/submit")` the route is bound to the
mutating verb POST and no auth pattern is in context, yet the program
emits no finding (its mutating test greps for a `.post`-style token,
absent here), refuting the claim as stated. -/
theorem spec_auth_flag_claim_cex : ¬ C4ClaimAt c4File := by
  intro h
  obtain ⟨hiff, _⟩ := h (by decide) 2 0 (by decide) (by decide) (by decide)
  obtain ⟨f, hf, _, _⟩ := hiff.mpr ⟨by decide, by decide⟩
  rw [show detect_missing_auth [c4File] = [] from by decide] at hf
  exact absurd hf (List.not_mem_nil f)

/-- C4 (amended): with "bound to a mutating verb" read as the program's
lexical test for a `.post/.put/.delete/.patch` token on the route line,
a route match yields a finding iff no auth pattern occurs in the context
window and the line is mutating-by-token or sensitive; severity is HIGH
iff the line is sensitive. -/
theorem spec_auth_flag_amended (fi : CodeFile)
    (hfl : hasFileLevelAuth fi.content = false) (j i : Nat)
    (hj : j < ROUTE_PATTERNS.length) (hi : i < (splitNl fi.content).length)
    (hs : (searchMatch (ROUTE_PATTERNS.getD j (.eps, "")).1
        ((splitNl fi.content).getD i [])).isSome = true) :
    ((∃ f, f ∈ detect_missing_auth [fi] ∧ f.line = i + 1 ∧
        f.framework = (ROUTE_PATTERNS.getD j (.eps, "")).2) ↔
      (windowHasAuth (splitNl fi.content) i = false ∧
        (reTest methodPat ((splitNl fi.content).getD i []) ||
          reTest sensitivePat ((splitNl fi.content).getD i [])) = true)) ∧
    ∀ f, f ∈ detect_missing_auth [fi] → f.line = i + 1 →
      f.severity = (if reTest sensitivePat ((splitNl fi.content).getD i []) = true
        then "HIGH" else "MEDIUM") := by
  have hmem : ∀ f : AuthFinding, f ∈ detect_missing_auth [fi] ↔
      ∃ p ∈ (splitNl fi.content).enum,
        f ∈ lineFindingsAuth fi.path (splitNl fi.content) p.1 p.2 := by
    intro f
    have hdet : detect_missing_auth [fi] = authFileFindings fi := by
      simp [detect_missing_auth]
    rw [hdet, authFileFindings, if_neg (by simp [hfl]), List.mem_flatMap]
  have hgd : (splitNl fi.content)[i]? = some ((splitNl fi.content).getD i []) := by
    rw [List.getElem?_eq_getElem hi, List.getD_eq_getElem?_getD,
      List.getElem?_eq_getElem hi, Option.getD_some]
  constructor
  · constructor
    · rintro ⟨f, hf, hline, hfw⟩
      obtain ⟨p, hp, hlf⟩ := (hmem f).mp hf
      obtain ⟨p1, p2⟩ := p
      obtain ⟨pr, hpr, m, hsm, hw, hor, rfl⟩ := mem_lineFindingsAuth.mp hlf
      have hp1 : p1 = i := by
        simpa using hline
      rw [hp1] at hp hw hor
      rw [List.mk_mem_enum_iff_getElem?] at hp
      have hp2 : p2 = (splitNl fi.content).getD i [] := by
        rw [hgd] at hp
        exact (Option.some_injective _ hp).symm
      rw [hp2] at hor
      exact ⟨hw, hor⟩
    · rintro ⟨hw, hor⟩
      obtain ⟨m, hm⟩ := Option.isSome_iff_exists.mp hs
      have hprmem : ROUTE_PATTERNS.getD j (.eps, "") ∈ ROUTE_PATTERNS := by
        rw [List.getD_eq_getElem?_getD, List.getElem?_eq_getElem hj, Option.getD_some]
        exact List.getElem_mem hj
      have hfm : (⟨fi.path, i + 1, "Missing Authentication",
          if reTest sensitivePat ((splitNl fi.content).getD i []) then "HIGH" else "MEDIUM",
          m.take 80, (ROUTE_PATTERNS.getD j (.eps, "")).2,
          authExpl (reTest sensitivePat ((splitNl fi.content).getD i []))⟩ : AuthFinding) ∈
          lineFindingsAuth fi.path (splitNl fi.content) i ((splitNl fi.content).getD i []) :=
        mem_lineFindingsAuth.mpr
          ⟨ROUTE_PATTERNS.getD j (.eps, ""), hprmem, m, hm, hw, hor, rfl⟩
      refine ⟨_, (hmem _).mpr ⟨(i, (splitNl fi.content).getD i []), ?_, hfm⟩, rfl, rfl⟩
      rw [List.mk_mem_enum_iff_getElem?]
      exact hgd
  · intro f hf hline
    obtain ⟨p, hp, hlf⟩ := (hmem f).mp hf
    obtain ⟨p1, p2⟩ := p
    obtain ⟨pr, hpr, m, hsm, hw, hor, rfl⟩ := mem_lineFindingsAuth.mp hlf
    have hp1 : p1 = i := by
      simpa using hline
    rw [hp1] at hp
    rw [List.mk_mem_enum_iff_getElem?] at hp
    have hp2 : p2 = (splitNl fi.content).getD i [] := by
      rw [hgd] at hp
      exact (Option.some_injective _ hp).symm
    rw [hp2]

/-- Admin-delete route file of the spec scenario: a sensitive mutating
route with no auth pattern anywhere near. -/
def c5File : CodeFile :=
  ⟨"app.py",
    ("@app.post(\"/admin/delete_user\")\ndef delete_user(uid):\n    return db.remove(uid)").data,
    ".py"⟩

theorem spec_auth_flag_amended_witness :
    ((∃ f, f ∈ detect_missing_auth [c5File] ∧ f.line = 0 + 1 ∧
        f.framework = (ROUTE_PATTERNS.getD 0 (RE.eps, "")).2) ↔
      (windowHasAuth (splitNl c5File.content) 0 = false ∧
        (reTest methodPat ((splitNl c5File.content).getD 0 []) ||
          reTest sensitivePat ((splitNl c5File.content).getD 0 [])) = true)) ∧
    ∀ f, f ∈ detect_missing_auth [c5File] → f.line = 0 + 1 →
      f.severity = (if reTest sensitivePat ((splitNl c5File.content).getD 0 []) = true
        then "HIGH" else "MEDIUM") :=
  spec_auth_flag_amended c5File (by decide) 0 0 (by decide) (by decide) (by decide)

/-- C5 counterexample: on the admin-delete scenario file the first line
is auth-free in its window, yet the program emits two findings for the
route line (the decorator pattern and the method-call pattern both
match), refuting "exactly one". -/
theorem spec_admin_route_cex :
    windowHasAuth (splitNl c5File.content) 0 = false ∧
      (detect_missing_auth [c5File]).length = 2 := by decide

/-- C5 (amended): the scenario yields exactly two findings for the route
line — one per matching route pattern — both with severity HIGH. -/
theorem spec_admin_route_amended :
    detect_missing_auth [c5File] =
      [⟨"app.py", 1, "Missing Authentication", "HIGH",
        ("@app.post(\"/admin/delete_user\"").data, "Python", authExpl true⟩,
       ⟨"app.py", 1, "Missing Authentication", "HIGH",
        ("app.post(\"/admin/delete_user\"").data, "JavaScript", authExpl true⟩] := by
  decide

theorem flatMap_guard_eq_filter_map {α β : Type} (q : α → Bool) (g : α → β)
    (l : List α) :
    (l.flatMap fun x => if q x then [g x] else []) = (l.filter q).map g := by
  induction l with
  | nil => rfl
  | cons x xs ih =>
    by_cases hx : q x
    · simp only [List.flatMap_cons, List.filter_cons, hx, if_pos, List.map_cons, ih]
      rfl
    · simp only [List.flatMap_cons, List.filter_cons, hx, if_neg, List.map_cons, ih,
        Bool.false_eq_true, List.nil_append]
      rfl

/-- C7: comment lines (stripped form starting with `#`, `//` or `*`)
produce no SQL finding; every other line produces one finding per
matching pattern; every finding is CRITICAL with evidence the first 100
characters of the stripped line. -/
theorem spec_sql_line_behavior :
    ∀ files : List CodeFile,
      detect_sql_injection files =
        files.flatMap (fun fi =>
          ((splitNl fi.content).enum).flatMap fun p =>
            if isCommentLine (pyStrip p.2) then []
            else
              (SQL_PATTERNS.filter fun pr => reTest pr.1 p.2).map fun pr =>
                ⟨fi.path, p.1 + 1, "SQL Injection", "CRITICAL", (pyStrip p.2).take 100,
                  pr.2, sqlExpl pr.2⟩) ∧
      ∀ f ∈ detect_sql_injection files, f.severity = "CRITICAL" ∧
        ∃ fi ∈ files, ∃ p ∈ (splitNl fi.content).enum,
          isCommentLine (pyStrip p.2) = false ∧ f.file = fi.path ∧ f.line = p.1 + 1 ∧
          f.code_snippet = (pyStrip p.2).take 100 := by
  intro files
  constructor
  · rw [detect_sql_injection]
    congr 1
    funext fi
    congr 1
    funext p
    by_cases hc : isCommentLine (pyStrip p.2)
    · rw [if_pos hc, if_pos hc]
    · rw [if_neg hc, if_neg hc]
      exact flatMap_guard_eq_filter_map _ _ _
  · intro f hf
    rw [detect_sql_injection] at hf
    simp only [List.mem_flatMap] at hf
    obtain ⟨fi, hfi, p, hp, hf⟩ := hf
    by_cases hc : isCommentLine (pyStrip p.2)
    · rw [if_pos hc] at hf
      simp at hf
    · rw [if_neg hc] at hf
      simp only [List.mem_flatMap] at hf
      obtain ⟨pr, hpr, hf⟩ := hf
      by_cases hq : reTest pr.1 p.2
      · rw [if_pos hq] at hf
        simp only [List.mem_singleton] at hf
        subst hf
        exact ⟨rfl, fi, hfi, p, hp, Bool.not_eq_true _ ▸ (by simpa using hc), rfl, rfl, rfl⟩
      · rw [if_neg hq] at hf
        simp at hf

/-- Scenario file of the SQL-concatenation test. -/
def sqlWitFile : CodeFile :=
  ⟨"db.py", ("query = \"SELECT * FROM users WHERE id = \" + user_id").data, ".py"⟩

theorem spec_sql_line_behavior_witness :
    (⟨"db.py", 1, "SQL Injection", "CRITICAL",
        ("query = \"SELECT * FROM users WHERE id = \" + user_id").data,
        "String concatenation in SQL query",
        sqlExpl "String concatenation in SQL query"⟩ : SqlFinding).severity = "CRITICAL" ∧
      ∃ fi ∈ [sqlWitFile], ∃ p ∈ (splitNl fi.content).enum,
        isCommentLine (pyStrip p.2) = false ∧ "db.py" = fi.path ∧ 1 = p.1 + 1 ∧
        ("query = \"SELECT * FROM users WHERE id = \" + user_id").data =
          (pyStrip p.2).take 100 :=
  (spec_sql_line_behavior [sqlWitFile]).2 _ (by decide)

/-- Scenario file of the hardcoded-password test. -/
def pwFile : CodeFile :=
  ⟨"config.py", ("password = \"supersecret123\"").data, ".py"⟩

/-- C8: the line `password = "supersecret123"` yields exactly one secret
finding, subtype "Password/Secret", severity HIGH, whose evidence is the
first 10 characters of the match (`password =`) plus the redaction
marker. -/
theorem spec_password_scenario :
    detect_secrets [pwFile] =
      [⟨"config.py", 1, "Password/Secret", "HIGH", ("password =".data) ++ redactMarker,
        "Potential Password/Secret found. Hardcoded secrets should be stored in environment variables or a secrets manager."⟩] := by
  decide

theorem spec_secret_evidence_masked_witness :
    ∃ m : List Char,
      (∃ pr ∈ SECRET_PATTERNS, Lang pr.1 m) ∧
      (⟨"config.py", 1, "Password/Secret", "HIGH", ("password =".data) ++ redactMarker,
        "Potential Password/Secret found. Hardcoded secrets should be stored in environment variables or a secrets manager."⟩ :
          SecretFinding).matched = m.take 10 ++ redactMarker ∧
      10 < m.length ∧
      ¬ m <:+: (⟨"config.py", 1, "Password/Secret", "HIGH",
        ("password =".data) ++ redactMarker,
        "Potential Password/Secret found. Hardcoded secrets should be stored in environment variables or a secrets manager."⟩ :
          SecretFinding).matched :=
  spec_secret_evidence_masked [pwFile] _ (by decide)

/-- File of the scanned repository: name, byte size, whether reading
succeeds, and the decoded text (the filesystem boundary of the
embedding). -/
structure FileNode where
  name : String
  size : Nat
  readable : Bool
  text : List Char

/-- Directory tree of the scanned repository. -/
inductive FsTree where
  | node (name : String) (subdirs : List FsTree) (files : List FileNode)

/-- Name of the root directory of a tree. -/
def FsTree.dirname : FsTree → String
  | .node n _ _ => n

/-- The `IGNORED_DIRS` set of `src/utils/file_scanner.py`. -/
def IGNORED_DIRS : List String :=
  ["node_modules", "venv", ".venv", ".tox", "__pycache__",
   ".git", ".idea", ".vscode", ".next", ".nuxt",
   "build", "dist", "out", "target",
   "vendor", "coverage", "__pypackages__",
   ".mypy_cache", ".pytest_cache", ".cache",
   "test_samples", "tests"]

/-- The `SUPPORTED_EXTENSIONS` set. -/
def SUPPORTED_EXTENSIONS : List String := [".py", ".js", ".ts", ".jsx", ".tsx"]

/-- The `SKIP_EXTENSIONS` set. -/
def SKIP_EXTENSIONS : List String :=
  [".min.js", ".lock", ".png", ".jpg", ".jpeg", ".gif", ".svg", ".ico",
   ".zip", ".tar", ".gz", ".bz2", ".7z", ".rar",
   ".pdf", ".map", ".woff", ".woff2", ".ttf", ".eot",
   ".pyc", ".pyo", ".so", ".dll", ".exe", ".bin",
   ".mp3", ".mp4", ".wav", ".avi", ".mov"]

/-- Limit `MAX_FILES_INITIAL` (files actually read and scanned). -/
def MAX_FILES_INITIAL : Nat := 150

/-- Limit `MAX_TOTAL_FILES` (files indexed in the tree walk). -/
def MAX_TOTAL_FILES : Nat := 800

/-- Limit `HARD_TREE_CAP` (entries walked before stopping). -/
def HARD_TREE_CAP : Nat := 10000

/-- Limit `MAX_FILE_SIZE` (bytes per file). -/
def MAX_FILE_SIZE : Nat := 500 * 1024

/-- Pruning test of the walk: a directory survives when its name is not
ignored and not hidden. -/
def keepDir (n : String) : Bool :=
  !(IGNORED_DIRS.contains n) && !(n.startsWith ".")

mutual

/-- Embedding of `os.walk` under the in-place pruning of `scan_files`:
the walk yields `(relative path, files)` per surviving directory,
top-down, parents first. -/
def walkT : FsTree → List String → List (List String × List FileNode)
  | .node _ subs fils, rel => (rel, fils) :: walkSubs subs rel

/-- Walk of the (pruned) subdirectories in order. -/
def walkSubs : List FsTree → List String → List (List String × List FileNode)
  | [], _ => []
  | t :: ts, rel =>
    (if keepDir t.dirname then walkT t (rel ++ [t.dirname]) else []) ++ walkSubs ts rel

end

/-- Embedding of `os.path.splitext(name)[1].lower()`: the extension from
the last dot, empty when every character before that dot is a dot. -/
def extOf (name : String) : String :=
  let cs := name.data
  match cs.reverse.findIdx? (· = '.') with
  | none => ""
  | some k =>
    let p := cs.length - 1 - k
    if (cs.take p).all (· = '.') then ""
    else String.mk ((cs.drop p).map Char.toLower)

/-- State of the discovery loop of `scan_files`: discovered code files
(with their nodes), entries seen, and whether a walk cap was hit. -/
structure P1St where
  found : List (List String × FileNode)
  seen : Nat
  hitCap : Bool

/-- Inner loop of phase 1 of `scan_files` over the files of one
directory, with the hard tree cap and the max-indexed cap as `break`s. -/
def p1Files (rel : List String) : List FileNode → P1St → P1St
  | [], st => st
  | fn :: rest, st =>
    let seen1 := st.seen + 1
    if HARD_TREE_CAP ≤ seen1 then ⟨st.found, seen1, true⟩
    else
      let ext := extOf fn.name
      if SKIP_EXTENSIONS.contains ext then p1Files rel rest ⟨st.found, seen1, st.hitCap⟩
      else if (".min.js".data).isSuffixOf fn.name.data then
        p1Files rel rest ⟨st.found, seen1, st.hitCap⟩
      else if SUPPORTED_EXTENSIONS.contains ext then
        let found1 := st.found ++ [(rel ++ [fn.name], fn)]
        if MAX_TOTAL_FILES ≤ found1.length then ⟨found1, seen1, true⟩
        else p1Files rel rest ⟨found1, seen1, st.hitCap⟩
      else p1Files rel rest ⟨st.found, seen1, st.hitCap⟩

/-- Outer loop of phase 1 over the walked directories; a hit cap breaks
out of the walk. -/
def p1Dirs : List (List String × List FileNode) → P1St → P1St
  | [], st => st
  | (rel, fils) :: rest, st =>
    let st1 := p1Files rel fils st
    if st1.hitCap then st1 else p1Dirs rest st1

/-- Phase 1 of `scan_files` on a repository tree. -/
def scanPhase1 (t : FsTree) : P1St :=
  p1Dirs (walkT t []) ⟨[], 0, false⟩

/-- Relative path string of path components (POSIX join). -/
def relString (l : List String) : String :=
  String.intercalate "/" l

/-- Result dict of `scan_files`: loaded files, `total_found`,
`was_truncated`. -/
structure ScanResult where
  files : List CodeFile
  total_found : Nat
  was_truncated : Bool
  deriving DecidableEq

/-- Embedding of `scan_files` of `src/utils/file_scanner.py`: walk and
index code files under the caps, then load the first
`MAX_FILES_INITIAL` of them, silently skipping oversized or unreadable
files.  `was_truncated` is computed before loading, from the discovery
count and the cap flag alone. -/
def scan_files (t : FsTree) : ScanResult :=
  let st := scanPhase1 t
  let total_found := st.found.length
  let was_truncated := decide (MAX_FILES_INITIAL < total_found) || st.hitCap
  let loaded := (st.found.take MAX_FILES_INITIAL).filterMap fun pf =>
    if MAX_FILE_SIZE < pf.2.size then none
    else if pf.2.readable then some ⟨relString pf.1, pf.2.text, extOf pf.2.name⟩
    else none
  ⟨loaded, total_found, was_truncated⟩

/-- Repository holding one discoverable code file that exceeds the
per-file byte cap. -/
def oversizedTree : FsTree :=
  .node "repo" [] [⟨"a.py", MAX_FILE_SIZE + 1, true, []⟩]

/-- C1 counterexample: one oversized file is discovered and skipped
during loading, so fewer files are loaded than discovered, yet
`was_truncated` stays false — refuting the claimed biconditional
(`truncated` is decided before loading, so load-time skips never set
it). -/
theorem spec_scan_truncation_cex :
    (scan_files oversizedTree).files.length < (scan_files oversizedTree).total_found ∧
      (scan_files oversizedTree).was_truncated = false := by decide

theorem length_filterMap_all_some {α β : Type} (f : α → Option β) :
    ∀ l : List α, (∀ x ∈ l, (f x).isSome) → (l.filterMap f).length = l.length := by
  intro l
  induction l with
  | nil => intro _; rfl
  | cons x xs ih =>
    intro h
    have hx := h x (List.mem_cons_self x xs)
    obtain ⟨y, hy⟩ := Option.isSome_iff_exists.mp hx
    rw [List.filterMap_cons, hy, List.length_cons, ih (fun z hz => h z (List.mem_cons_of_mem x hz))]
    rfl

/-- C1 (amended): `total_found` always dominates the number of loaded
files; `was_truncated` is true iff more files were discovered than the
load budget `MAX_FILES_INITIAL` or a walk cap was hit; and the claimed
biconditional (`truncated` iff discovered > loaded or a cap was hit)
holds whenever no discovered file is skipped during loading. -/
theorem spec_scan_truncation_amended (t : FsTree) :
    (scan_files t).files.length ≤ (scan_files t).total_found ∧
    (scan_files t).was_truncated =
      (decide (MAX_FILES_INITIAL < (scan_files t).total_found) || (scanPhase1 t).hitCap) ∧
    ((∀ pf ∈ (scanPhase1 t).found, pf.2.size ≤ MAX_FILE_SIZE ∧ pf.2.readable = true) →
      ((scan_files t).was_truncated = true ↔
        ((scan_files t).files.length < (scan_files t).total_found ∨
          (scanPhase1 t).hitCap = true))) := by
  refine ⟨?_, rfl, ?_⟩
  · calc (scan_files t).files.length
        ≤ ((scanPhase1 t).found.take MAX_FILES_INITIAL).length :=
          List.length_filterMap_le _ _
      _ ≤ (scanPhase1 t).found.length := by rw [List.length_take]; omega
      _ = (scan_files t).total_found := rfl
  · intro hall
    have hload : (scan_files t).files.length =
        ((scanPhase1 t).found.take MAX_FILES_INITIAL).length := by
      apply length_filterMap_all_some
      intro pf hpf
      have hmem : pf ∈ (scanPhase1 t).found := List.mem_of_mem_take hpf
      obtain ⟨hsize, hread⟩ := hall pf hmem
      have h1 : ¬ (MAX_FILE_SIZE < pf.2.size) := by omega
      simp only [if_neg h1, hread, if_pos, Option.isSome_some]
    have htake : ((scanPhase1 t).found.take MAX_FILES_INITIAL).length =
        min MAX_FILES_INITIAL (scanPhase1 t).found.length := List.length_take ..
    have htf : (scan_files t).total_found = (scanPhase1 t).found.length := rfl
    have hwt : (scan_files t).was_truncated =
        (decide (MAX_FILES_INITIAL < (scanPhase1 t).found.length) || (scanPhase1 t).hitCap) :=
      rfl
    rw [hwt, hload, htake, htf]
    rcases hcap : (scanPhase1 t).hitCap with _ | _
    · simp only [Bool.or_false, decide_eq_true_eq]
      constructor
      · intro h; left; omega
      · rintro (h | h)
        · omega
        · cases h
    · simp

/-- Repository with one small readable file, loaded in full. -/
def smallTree : FsTree :=
  .node "repo" [] [⟨"a.py", 10, true, ("x = 1").data⟩]

theorem spec_scan_truncation_amended_witness :
    (∀ pf ∈ (scanPhase1 smallTree).found, pf.2.size ≤ MAX_FILE_SIZE ∧ pf.2.readable = true) ∧
      ((scan_files smallTree).was_truncated = true ↔
        ((scan_files smallTree).files.length < (scan_files smallTree).total_found ∨
          (scanPhase1 smallTree).hitCap = true)) :=
  ⟨by decide, (spec_scan_truncation_amended smallTree).2.2 (by decide)⟩

/-- The category-keyed findings mapping returned by
`_run_agents_parallel`: the dict always carries exactly the three
category keys, modeled as a three-field structure (`as_completed` only
permutes dict insertion order, which a keyed mapping quotients away). -/
structure Findings3 where
  secrets_detected : List SecretFinding
  sql_injection : List SqlFinding
  missing_auth : List AuthFinding
  deriving DecidableEq

/-- Result capture of one task of `_run_agents_parallel`: `fut.result()`
re-raises an exception of the task, which the `except` arm turns into an
empty finding list. -/
def captureResult {α : Type} (r : Except String (List α)) : List α :=
  match r with
  | .ok l => l
  | .error _ => []

/-- Embedding of `_run_agents_parallel` of `src/main.py`, parameterized
by the three (possibly raising) detector functions: each task's result
is captured independently and a raising task contributes an empty list
for its category; the function itself never raises. -/
def runAgentsParallel
    (fs : List CodeFile → Except String (List SecretFinding))
    (fq : List CodeFile → Except String (List SqlFinding))
    (fa : List CodeFile → Except String (List AuthFinding))
    (files : List CodeFile) : Findings3 :=
  ⟨captureResult (fs files), captureResult (fq files), captureResult (fa files)⟩

/-- C6: whenever exactly one of the three detectors raises, the
orchestrator still returns a mapping with all three category keys, the
failing category empty and the other two carrying their detectors'
results. -/
theorem spec_partial_failure :
    ∀ (files : List CodeFile)
      (fs : List CodeFile → Except String (List SecretFinding))
      (fq : List CodeFile → Except String (List SqlFinding))
      (fa : List CodeFile → Except String (List AuthFinding)),
      (∀ e qs as2, fs files = .error e → fq files = .ok qs → fa files = .ok as2 →
        runAgentsParallel fs fq fa files = ⟨[], qs, as2⟩) ∧
      (∀ ss e as2, fs files = .ok ss → fq files = .error e → fa files = .ok as2 →
        runAgentsParallel fs fq fa files = ⟨ss, [], as2⟩) ∧
      (∀ ss qs e, fs files = .ok ss → fq files = .ok qs → fa files = .error e →
        runAgentsParallel fs fq fa files = ⟨ss, qs, []⟩) := by
  intro files fs fq fa
  refine ⟨?_, ?_, ?_⟩ <;>
    · intro a b c h1 h2 h3
      simp [runAgentsParallel, captureResult, h1, h2, h3]

theorem spec_partial_failure_witness :
    runAgentsParallel (fun _ => .error "secrets agent crashed")
      (fun fls => .ok (detect_sql_injection fls))
      (fun fls => .ok (detect_missing_auth fls)) [pwFile] =
      ⟨[], detect_sql_injection [pwFile], detect_missing_auth [pwFile]⟩ :=
  (spec_partial_failure [pwFile] _ _ _).1 "secrets agent crashed" _ _ rfl rfl rfl

/-- The `_summary` dict added by the aggregator node of
`src/graph_workflow.py`. -/
structure GraphSummary where
  total_findings : Nat
  secrets_count : Nat
  sql_count : Nat
  auth_count : Nat
  deriving DecidableEq

/-- Shared state of the LangGraph workflow (`SecurityState`): files and
the findings mapping, whose `_summary` entry is absent until the
aggregator runs. -/
structure GraphState where
  files : List CodeFile
  secrets_detected : List SecretFinding
  sql_injection : List SqlFinding
  missing_auth : List AuthFinding
  summary : Option GraphSummary

/-- Node `secrets_node`. -/
def secrets_node (st : GraphState) : GraphState :=
  ⟨st.files, detect_secrets st.files, st.sql_injection, st.missing_auth, st.summary⟩

/-- Node `sql_node`. -/
def sql_node (st : GraphState) : GraphState :=
  ⟨st.files, st.secrets_detected, detect_sql_injection st.files, st.missing_auth, st.summary⟩

/-- Node `auth_node`. -/
def auth_node (st : GraphState) : GraphState :=
  ⟨st.files, st.secrets_detected, st.sql_injection, detect_missing_auth st.files, st.summary⟩

/-- Node `aggregator_node`: totals over the three category lists. -/
def aggregator_node (st : GraphState) : GraphState :=
  ⟨st.files, st.secrets_detected, st.sql_injection, st.missing_auth,
    some ⟨st.secrets_detected.length + st.sql_injection.length + st.missing_auth.length,
      st.secrets_detected.length, st.sql_injection.length, st.missing_auth.length⟩⟩

/-- Embedding of `run_security_graph`: the compiled graph runs
secrets → sql → auth → aggregator sequentially on the initial state. -/
def run_security_graph (files : List CodeFile) : GraphState :=
  aggregator_node (auth_node (sql_node (secrets_node ⟨files, [], [], [], none⟩)))

/-- C10: on any file list where no detector raises, the sequential graph
workflow and the parallel orchestrator agree on all three category keys,
and the graph additionally carries the `_summary` entry. -/
theorem spec_graph_parallel_equiv :
    ∀ files : List CodeFile,
      (run_security_graph files).secrets_detected =
        (runAgentsParallel (fun fl => .ok (detect_secrets fl))
          (fun fl => .ok (detect_sql_injection fl))
          (fun fl => .ok (detect_missing_auth fl)) files).secrets_detected ∧
      (run_security_graph files).sql_injection =
        (runAgentsParallel (fun fl => .ok (detect_secrets fl))
          (fun fl => .ok (detect_sql_injection fl))
          (fun fl => .ok (detect_missing_auth fl)) files).sql_injection ∧
      (run_security_graph files).missing_auth =
        (runAgentsParallel (fun fl => .ok (detect_secrets fl))
          (fun fl => .ok (detect_sql_injection fl))
          (fun fl => .ok (detect_missing_auth fl)) files).missing_auth ∧
      (run_security_graph files).summary =
        some ⟨(detect_secrets files).length + (detect_sql_injection files).length +
            (detect_missing_auth files).length,
          (detect_secrets files).length, (detect_sql_injection files).length,
          (detect_missing_auth files).length⟩ :=
  fun _ => ⟨rfl, rfl, rfl, rfl⟩

/-- Python value stored in a finding dict (string, integer, or text
snippet). -/
inductive PyVal where
  | s (v : String)
  | n (v : Nat)
  | txt (v : List Char)
  deriving DecidableEq

/-- Finding dict as an insertion-ordered association list with unique
keys (the invariant of a Python dict). -/
abbrev FDict : Type := List (String × PyVal)

/-- Python `d.get(k)` / `d.get(k, default)` without the default. -/
def dictGet (d : FDict) (k : String) : Option PyVal :=
  (List.find? (fun kv => kv.1 = k) d).map Prod.snd

/-- Keys of a dict, in insertion order. -/
def dictKeys (d : FDict) : List String :=
  List.map Prod.fst d

/-- Embedding of the Python dict merge `{**a, **b}`: keys of `a` in
order (values overridden by `b` where present), then the keys of `b`
absent from `a`. -/
def dictMerge (a b : FDict) : FDict :=
  List.map (fun kv => (kv.1, (dictGet b kv.1).getD kv.2)) a ++
    List.filter (fun kv => !(dictKeys a).contains kv.1) b

/-- Python truthiness of an optional dict value (absent, `""`, `0` and
empty text are falsy). -/
def truthy : Option PyVal → Bool
  | none => false
  | some (.s v) => !(v = "")
  | some (.n v) => !(v = 0)
  | some (.txt v) => !(v = [])

/-- The `{risk, exploit, fix}` reply of the external explanation
service. -/
structure AIExpl where
  risk : String
  exploit : String
  fix : String

/-- Dict built by `generate_ai_explanation`: every branch of the source
(no client, parsed reply, failure) returns exactly the keys `ai_risk`,
`ai_exploit`, `ai_fix`, in that insertion order. -/
def aiDict (e : AIExpl) : FDict :=
  [("ai_risk", .s e.risk), ("ai_exploit", .s e.exploit), ("ai_fix", .s e.fix)]

/-- Code excerpt chosen by `enhance_findings_with_ai`:
`finding.get('code_snippet') or finding.get('matched') or
finding.get('endpoint', '')`. -/
def codeOf (fd : FDict) : PyVal :=
  if truthy (dictGet fd "code_snippet") then (dictGet fd "code_snippet").getD (.s "")
  else if truthy (dictGet fd "matched") then (dictGet fd "matched").getD (.s "")
  else (dictGet fd "endpoint").getD (.s "")

/-- Vulnerability label chosen by `enhance_findings_with_ai`:
`finding.get('type') or finding.get('vulnerability', category)`. -/
def vulnTypeOf (fd : FDict) (category : String) : PyVal :=
  if truthy (dictGet fd "type") then (dictGet fd "type").getD (.s "")
  else (dictGet fd "vulnerability").getD (.s category)

/-- Embedding of `enhance_findings_with_ai` of
`src/agents/ai_explainer.py`, parameterized by the external explanation
service: the `_summary` entry passes through unchanged, every finding of
every other category is merged (`{**finding, **ai_explanation}`) with
the service's three-key dict.  The findings mapping is an
insertion-ordered association list of category name to finding list. -/
def enhance_findings_with_ai (explain : PyVal → PyVal → AIExpl)
    (findings : List (String × List FDict)) : List (String × List FDict) :=
  findings.map fun ci =>
    if ci.1 = "_summary" then ci
    else (ci.1, ci.2.map fun fd =>
      dictMerge fd (aiDict (explain (vulnTypeOf fd ci.1) (codeOf fd))))

theorem contains_eq_false_of_all_ne {l : List String} {a : String}
    (h : ∀ x ∈ l, ¬(x = a)) : l.contains a = false := by
  induction l with
  | nil => rfl
  | cons x xs ih =>
    rw [List.contains_cons]
    have hx : (a == x) = false := by
      have := h x (List.mem_cons_self x xs)
      simp only [beq_eq_false_iff_ne, ne_eq]
      intro hc; exact this hc.symm
    rw [hx, Bool.false_or]
    exact ih fun z hz => h z (List.mem_cons_of_mem x hz)

/-- Merge with the three-key AI dict is plain concatenation when the
finding holds none of the three enrichment keys. -/
theorem dictMerge_ai_disjoint (fd : FDict) (e : AIExpl)
    (h : ∀ kv ∈ fd, kv.1 ≠ "ai_risk" ∧ kv.1 ≠ "ai_exploit" ∧ kv.1 ≠ "ai_fix") :
    dictMerge fd (aiDict e) = fd ++ aiDict e := by
  rw [dictMerge]
  have h1 : List.map (fun kv => (kv.1, (dictGet (aiDict e) kv.1).getD kv.2)) fd =
      List.map id fd := by
    apply List.map_congr_left
    intro kv hkv
    obtain ⟨n1, n2, n3⟩ := h kv hkv
    have hget : dictGet (aiDict e) kv.1 = none := by
      rw [aiDict, dictGet]
      rw [List.find?_cons_of_neg _ (by simpa using n1.symm),
        List.find?_cons_of_neg _ (by simpa using n2.symm),
        List.find?_cons_of_neg _ (by simpa using n3.symm), List.find?_nil]
      rfl
    rw [hget, Option.getD_none, id_eq]
  have h2 : List.filter (fun kv => !(dictKeys fd).contains kv.1) (aiDict e) = aiDict e := by
    rw [List.filter_eq_self]
    intro kv hkv
    have hmem : ∀ x ∈ dictKeys fd, ¬(x = kv.1) := by
      intro x hx hc
      rw [dictKeys] at hx
      obtain ⟨kv2, hkv2, hkv2x⟩ := List.mem_map.mp hx
      obtain ⟨m1, m2, m3⟩ := h kv2 hkv2
      rw [aiDict] at hkv
      simp only [List.mem_cons, List.not_mem_nil, or_false] at hkv
      rcases hkv with rfl | rfl | rfl
      · exact m1 (hkv2x.trans hc)
      · exact m2 (hkv2x.trans hc)
      · exact m3 (hkv2x.trans hc)
    rw [contains_eq_false_of_all_ne hmem]
    rfl
  rw [h1, h2, List.map_id]

/-- C9: enrichment preserves every detector-authored entry of every
finding in place and order, appends exactly the three enrichment keys
(which detector-authored findings never use), and passes a `_summary`
entry through unchanged. -/
theorem spec_enrichment_additive :
    ∀ (explain : PyVal → PyVal → AIExpl) (fs : List (String × List FDict)),
      (∀ ci ∈ fs, ∀ fd ∈ ci.2, ∀ kv ∈ fd,
        kv.1 ≠ "ai_risk" ∧ kv.1 ≠ "ai_exploit" ∧ kv.1 ≠ "ai_fix") →
      (enhance_findings_with_ai explain fs).length = fs.length ∧
      ∀ i, i < fs.length →
        ((enhance_findings_with_ai explain fs).getD i ("", [])).1 =
          (fs.getD i ("", [])).1 ∧
        ((fs.getD i ("", [])).1 = "_summary" →
          (enhance_findings_with_ai explain fs).getD i ("", []) = fs.getD i ("", [])) ∧
        ((fs.getD i ("", [])).1 ≠ "_summary" →
          ((enhance_findings_with_ai explain fs).getD i ("", [])).2.length =
            (fs.getD i ("", [])).2.length ∧
          ∀ j, j < (fs.getD i ("", [])).2.length →
            ∃ r x2 f3 : String,
              ((enhance_findings_with_ai explain fs).getD i ("", [])).2.getD j [] =
                (fs.getD i ("", [])).2.getD j [] ++
                  [("ai_risk", .s r), ("ai_exploit", .s x2), ("ai_fix", .s f3)]) := by
  intro explain fs hdisj
  refine ⟨by rw [enhance_findings_with_ai, List.length_map], ?_⟩
  intro i hi
  have hgetF : fs.getD i ("", []) = fs[i] := by
    rw [List.getD_eq_getElem?_getD, List.getElem?_eq_getElem hi, Option.getD_some]
  have hgetE : (enhance_findings_with_ai explain fs).getD i ("", []) =
      (if fs[i].1 = "_summary" then fs[i]
       else (fs[i].1, fs[i].2.map fun fd =>
        dictMerge fd (aiDict (explain (vulnTypeOf fd fs[i].1) (codeOf fd))))) := by
    rw [enhance_findings_with_ai, List.getD_eq_getElem?_getD, List.getElem?_map,
      List.getElem?_eq_getElem hi]
    rfl
  have himem : fs[i] ∈ fs := List.getElem_mem hi
  rw [hgetF, hgetE]
  by_cases hsum : fs[i].1 = "_summary"
  · rw [if_pos hsum]
    exact ⟨rfl, fun _ => rfl, fun hn => absurd hsum hn⟩
  · rw [if_neg hsum]
    refine ⟨rfl, fun hc => absurd hc hsum, fun _ => ⟨List.length_map .., ?_⟩⟩
    intro j hj
    refine ⟨(explain (vulnTypeOf fs[i].2[j] fs[i].1) (codeOf fs[i].2[j])).risk,
      (explain (vulnTypeOf fs[i].2[j] fs[i].1) (codeOf fs[i].2[j])).exploit,
      (explain (vulnTypeOf fs[i].2[j] fs[i].1) (codeOf fs[i].2[j])).fix, ?_⟩
    have hj2 : j < (fs[i].2.map fun fd =>
        dictMerge fd (aiDict (explain (vulnTypeOf fd fs[i].1) (codeOf fd)))).length := by
      rw [List.length_map]; exact hj
    rw [List.getD_eq_getElem?_getD, List.getElem?_eq_getElem hj2, Option.getD_some,
      List.getElem_map, List.getD_eq_getElem?_getD, List.getElem?_eq_getElem hj,
      Option.getD_some]
    exact dictMerge_ai_disjoint _ _ fun kv hkv =>
      hdisj fs[i] himem fs[i].2[j] (List.getElem_mem hj) kv hkv

/-- Sample findings mapping: one secret finding and a summary entry. -/
def sampleFindings : List (String × List FDict) :=
  [("secrets_detected", [[("file", .s "config.py"), ("line", .n 1),
      ("type", .s "Password/Secret"), ("severity", .s "HIGH"),
      ("matched", .txt (("password =".data) ++ redactMarker))]]),
   ("_summary", [[("total_findings", .n 1)]])]

theorem spec_enrichment_additive_witness :
    (enhance_findings_with_ai (fun _ _ => ⟨"risk", "exploit", "fix"⟩)
        sampleFindings).length = sampleFindings.length ∧
      ∀ i, i < sampleFindings.length →
        ((enhance_findings_with_ai (fun _ _ => ⟨"risk", "exploit", "fix"⟩)
            sampleFindings).getD i ("", [])).1 = (sampleFindings.getD i ("", [])).1 ∧
        ((sampleFindings.getD i ("", [])).1 = "_summary" →
          (enhance_findings_with_ai (fun _ _ => ⟨"risk", "exploit", "fix"⟩)
            sampleFindings).getD i ("", []) = sampleFindings.getD i ("", [])) ∧
        ((sampleFindings.getD i ("", [])).1 ≠ "_summary" →
          ((enhance_findings_with_ai (fun _ _ => ⟨"risk", "exploit", "fix"⟩)
              sampleFindings).getD i ("", [])).2.length =
            (sampleFindings.getD i ("", [])).2.length ∧
          ∀ j, j < (sampleFindings.getD i ("", [])).2.length →
            ∃ r x2 f3 : String,
              ((enhance_findings_with_ai (fun _ _ => ⟨"risk", "exploit", "fix"⟩)
                  sampleFindings).getD i ("", [])).2.getD j [] =
                (sampleFindings.getD i ("", [])).2.getD j [] ++
                  [("ai_risk", .s r), ("ai_exploit", .s x2), ("ai_fix", .s f3)]) :=
  spec_enrichment_additive (fun _ _ => ⟨"risk", "exploit", "fix"⟩) sampleFindings
    (by decide)

end SecAudit
